import Mathlib

/-!
Shallow embedding of `src/simple-vector/simple_vector.h` (class `SimpleVector<Type>`).

The backing buffer (`ArrayPtr`, the spec's RawBuffer) is an external
collaborator: it holds `capacity` slots, of which only the first `size` are
live.  Every operation of the class fully (re)writes the live region, so a
state is faithfully represented by the list of live elements together with the
capacity.  Iterators (`Type*`) are represented as indices into the live region.
Machine arithmetic on `size_t` is represented by `Nat` (the spec never brings
any state near `SIZE_MAX`).
-/

namespace SV

/-- The single checked-access error of the class (`std::out_of_range` thrown
by `At`, the spec's `IndexOutOfRange`). -/
inductive VectorError where
  | indexOutOfRange
deriving DecidableEq, Repr

/-- State of a `SimpleVector<Type>`: the live elements (first `size_` slots of
`data_ptr_`) and `capacity_`. -/
structure SimpleVector (α : Type) where
  data : List α
  capacity : Nat
deriving DecidableEq, Repr

variable {α : Type}

/-- Source `GetSize`: `size_`, the number of live elements. -/
def SimpleVector.size (s : SimpleVector α) : Nat := s.data.length

/-- Source `IsEmpty`: `size_ == 0`. -/
def SimpleVector.isEmptyVec (s : SimpleVector α) : Bool := s.size == 0

/-- Default constructor `SimpleVector()`: `size_ = 0`, `capacity_ = 0`. -/
def emptyVec : SimpleVector α := ⟨[], 0⟩

/-- Source `SimpleVector(size_t size)`: allocates `size` slots and default-constructs
each (`std::generate` with `Type()`). -/
def ctorSize [Inhabited α] (n : Nat) : SimpleVector α :=
  ⟨List.replicate n default, n⟩

/-- Source `SimpleVector(size_t size, const Type& value)`: `std::fill` with `value`. -/
def ctorSizeValue (n : Nat) (v : α) : SimpleVector α :=
  ⟨List.replicate n v, n⟩

/-- Source `SimpleVector(std::initializer_list<Type>)`: copies the literal sequence. -/
def ctorInitList (l : List α) : SimpleVector α := ⟨l, l.length⟩

/-- Source `SimpleVector(const ReserveProxyObj&)`: `size_ = 0`,
`capacity_ = other.GetCapacity()`. -/
def ctorReserve (n : Nat) : SimpleVector α := ⟨[], n⟩

/-- Copy constructor `SimpleVector(const SimpleVector&)`.  The object under
construction starts default-initialized (`capacity_ = 0`), so the first branch
(`capacity_ >= other.size_`) is taken only when `other.size_ == 0`; otherwise
`new_capacity = (capacity_ * 2 >= other.size_ ? capacity_ * 2 : other.size_)`
with `capacity_ = 0`. -/
def copyCtor (other : SimpleVector α) : SimpleVector α :=
  if 0 ≥ other.size then
    ⟨other.data, 0⟩
  else
    ⟨other.data, if 0 * 2 ≥ other.size then 0 * 2 else other.size⟩

/-- Source `swap`: exchanges `data_ptr_`, `size_`, `capacity_` of the two objects. -/
def swapVec (a b : SimpleVector α) : SimpleVector α × SimpleVector α := (b, a)

/-- Move constructor `SimpleVector(SimpleVector&&)`: the default-initialized
new object swaps with `other`.  First component: the new object; second: what
`other` is left holding. -/
def moveCtor (other : SimpleVector α) : SimpleVector α × SimpleVector α :=
  swapVec emptyVec other

/-- Copy assignment `operator=(const SimpleVector&)` for distinct objects:
builds `rhs_copy(rhs)` and swaps it into `*this` (the old state dies with the
temporary). -/
def copyAssign (_d rhs : SimpleVector α) : SimpleVector α := copyCtor rhs

/-- Move assignment `operator=(SimpleVector&&)` for distinct objects: swaps
`*this` with `rhs`.  First component: the destination after assignment;
second: what the source is left holding. -/
def moveAssign (d c : SimpleVector α) : SimpleVector α × SimpleVector α :=
  swapVec d c

/-- The growth rule `new_capacity = (capacity_ == 0 ? 1 : capacity_ * 2)`
used by `PushBack` and `Insert`. -/
def growCapacity (c : Nat) : Nat := if c = 0 then 1 else c * 2

/-- Source `PushBack`: if not full, writes `value` at slot `size_`; otherwise grows
with `growCapacity`, copies the live elements and appends `value`. -/
def PushBack (s : SimpleVector α) (v : α) : SimpleVector α :=
  if s.size ≠ s.capacity then
    ⟨s.data ++ [v], s.capacity⟩
  else
    ⟨s.data ++ [v], growCapacity s.capacity⟩

/-- Source `PopBack`: `--size_` (asserts `size_ != 0`; only applied under that
precondition). -/
def PopBack (s : SimpleVector α) : SimpleVector α :=
  ⟨s.data.dropLast, s.capacity⟩

/-- Source `Erase(pos)` with `pos = begin() + n`, `n < size_`: shifts the elements
after slot `n` one slot left, `--size_`, returns `&data_ptr_[n]`
(the returned iterator as an index). -/
def Erase (s : SimpleVector α) (n : Nat) : SimpleVector α × Nat :=
  (⟨s.data.take n ++ s.data.drop (n + 1), s.capacity⟩, n)

/-- Source `Insert(pos, value)` with `pos = begin() + n`, `n ≤ size_`: if not full,
shifts `[pos, end())` one slot right and places `value` at slot `n`;
otherwise grows with `growCapacity`, copies `[begin(), pos)`, places `value`,
copies `[pos, end())`.  Both branches return an iterator to slot `n`. -/
def Insert (s : SimpleVector α) (n : Nat) (v : α) : SimpleVector α × Nat :=
  if s.size ≠ s.capacity then
    (⟨s.data.take n ++ v :: s.data.drop n, s.capacity⟩, n)
  else
    (⟨s.data.take n ++ v :: s.data.drop n, growCapacity s.capacity⟩, n)

/-- Source `Reserve(new_capacity)`: reallocates to exactly `new_capacity` if it
exceeds `capacity_`, copying the live elements; otherwise does nothing. -/
def Reserve (s : SimpleVector α) (n : Nat) : SimpleVector α :=
  if n > s.capacity then ⟨s.data, n⟩ else s

/-- Source `Resize(new_size)`: if `new_size ≤ size_`, just `size_ = new_size`;
if `size_ < new_size ≤ capacity_`, default-constructs slots `[size_, new_size)`;
otherwise reallocates to `max(capacity_ * 2, new_size)` (written as in the
source: `capacity_ * 2 >= new_size ? capacity_ * 2 : new_size`), moves the
live elements and default-constructs the new tail. -/
def Resize [Inhabited α] (s : SimpleVector α) (n : Nat) : SimpleVector α :=
  if n ≤ s.size then
    ⟨s.data.take n, s.capacity⟩
  else if n ≤ s.capacity then
    ⟨s.data ++ List.replicate (n - s.size) default, s.capacity⟩
  else
    ⟨s.data ++ List.replicate (n - s.size) default,
      if s.capacity * 2 ≥ n then s.capacity * 2 else n⟩

/-- Source `Clear`: `size_ = 0`, buffer and capacity untouched. -/
def Clear (s : SimpleVector α) : SimpleVector α := ⟨[], s.capacity⟩

/-- Source `At(index)`: throws `std::out_of_range` when `index >= size_`, else
returns `data_ptr_[index]`. -/
def At (s : SimpleVector α) (i : Nat) : Except VectorError α :=
  if h : i ≥ s.size then
    .error .indexOutOfRange
  else
    .ok (s.data.get ⟨i, Nat.lt_of_not_le h⟩)

/-- Source `operator==`: `lhs.GetSize() == rhs.GetSize() && std::equal(...)`. -/
def vecEq [DecidableEq α] (l r : SimpleVector α) : Bool :=
  l.size == r.size && l.data == r.data

/-- States reachable through the public interface, respecting the asserted
preconditions (`PopBack` on a non-empty vector, `Erase` at a dereferenceable
position, `Insert` at a position in `[begin(), end()]`). -/
inductive Reachable [Inhabited α] : SimpleVector α → Prop where
  | default : Reachable emptyVec
  | ofSize (n : Nat) : Reachable (ctorSize n)
  | ofSizeValue (n : Nat) (v : α) : Reachable (ctorSizeValue n v)
  | ofInitList (l : List α) : Reachable (ctorInitList l)
  | ofReserveProxy (n : Nat) : Reachable (ctorReserve n)
  | ofCopy {s} : Reachable s → Reachable (copyCtor s)
  | ofMoveFst {s} : Reachable s → Reachable (moveCtor s).1
  | ofMoveSnd {s} : Reachable s → Reachable (moveCtor s).2
  | pushBack {s} (v : α) : Reachable s → Reachable (PushBack s v)
  | popBack {s} : Reachable s → s.size ≠ 0 → Reachable (PopBack s)
  | insert {s} (n : Nat) (v : α) : Reachable s → n ≤ s.size →
      Reachable (Insert s n v).1
  | erase {s} (n : Nat) : Reachable s → n < s.size →
      Reachable (Erase s n).1
  | reserve {s} (n : Nat) : Reachable s → Reachable (Reserve s n)
  | resize {s} (n : Nat) : Reachable s → Reachable (Resize s n)
  | clear {s} : Reachable s → Reachable (Clear s)
  | swapFst {a b} : Reachable a → Reachable b → Reachable (swapVec a b).1
  | swapSnd {a b} : Reachable a → Reachable b → Reachable (swapVec a b).2
  | copyAssigned {d c} : Reachable d → Reachable c → Reachable (copyAssign d c)
  | moveAssignFst {d c} : Reachable d → Reachable c →
      Reachable (moveAssign d c).1
  | moveAssignSnd {d c} : Reachable d → Reachable c →
      Reachable (moveAssign d c).2

/-- Pushing a whole list, one `PushBack` at a time. -/
def pushAll (s : SimpleVector α) (l : List α) : SimpleVector α :=
  l.foldl PushBack s

/-! ### Helper lemmas -/

lemma size_mk (l : List α) (c : Nat) :
    (SimpleVector.mk l c).size = l.length := rfl

lemma copyCtor_data (s : SimpleVector α) : (copyCtor s).data = s.data := by
  unfold copyCtor
  split <;> rfl

lemma copyCtor_capacity (s : SimpleVector α) :
    (copyCtor s).capacity = s.size := by
  unfold copyCtor
  split
  · next h => simp only [SimpleVector.size] at h ⊢; omega
  · simp only [SimpleVector.size]

lemma size_le_cap_pushBack (s : SimpleVector α) (v : α)
    (h : s.size ≤ s.capacity) :
    (PushBack s v).size ≤ (PushBack s v).capacity := by
  unfold PushBack growCapacity
  simp only [SimpleVector.size] at h ⊢
  split
  · dsimp only
    simp only [List.length_append, List.length_singleton]
    omega
  · split <;>
      (dsimp only
       simp only [List.length_append, List.length_singleton]
       omega)

lemma size_le_cap_insert (s : SimpleVector α) (n : Nat) (v : α)
    (h : s.size ≤ s.capacity) :
    (Insert s n v).1.size ≤ (Insert s n v).1.capacity := by
  unfold Insert growCapacity
  simp only [SimpleVector.size] at h ⊢
  split
  · dsimp only
    simp only [List.length_append, List.length_cons, List.length_take, List.length_drop]
    omega
  · split <;>
      (dsimp only
       simp only [List.length_append, List.length_cons, List.length_take, List.length_drop]
       omega)

lemma size_le_cap_resize [Inhabited α] (s : SimpleVector α) (n : Nat)
    (h : s.size ≤ s.capacity) :
    (Resize s n).size ≤ (Resize s n).capacity := by
  unfold Resize
  simp only [SimpleVector.size] at h ⊢
  split
  · dsimp only
    simp only [List.length_take]
    omega
  · split
    · dsimp only
      simp only [List.length_append, List.length_replicate]
      omega
    · split <;>
        (dsimp only
         simp only [List.length_append, List.length_replicate]
         omega)

/-- Invariant maintained by repeated `PushBack` from a default-constructed
vector: either still empty with capacity 0, or the capacity is the least
power of two that is `≥ size` (namely `2 ^ Nat.clog 2 size`). -/
def capInv (s : SimpleVector α) : Prop :=
  (s.size = 0 ∧ s.capacity = 0) ∨
  (1 ≤ s.size ∧ s.capacity = 2 ^ Nat.clog 2 s.size)

lemma capInv_empty : capInv (emptyVec : SimpleVector α) :=
  Or.inl ⟨rfl, rfl⟩

lemma clog2_succ_stay {k : Nat} (h2 : k + 1 ≤ 2 ^ Nat.clog 2 k) :
    Nat.clog 2 (k + 1) = Nat.clog 2 k :=
  le_antisymm ((Nat.le_pow_iff_clog_le (by norm_num)).mp h2)
    (Nat.clog_mono_right 2 (Nat.le_succ k))

lemma clog2_succ_grow {k : Nat} (h1 : 1 ≤ k) (h2 : k = 2 ^ Nat.clog 2 k) :
    Nat.clog 2 (k + 1) = Nat.clog 2 k + 1 := by
  apply le_antisymm
  · apply (Nat.le_pow_iff_clog_le (by norm_num)).mp
    rw [pow_succ]
    omega
  · by_contra hlt
    push_neg at hlt
    have hle : k + 1 ≤ 2 ^ Nat.clog 2 k :=
      (Nat.le_pow_iff_clog_le (by norm_num)).mpr (by omega)
    omega

lemma pushBack_data (s : SimpleVector α) (v : α) :
    (PushBack s v).data = s.data ++ [v] := by
  unfold PushBack
  split <;> rfl

lemma capInv_pushBack (s : SimpleVector α) (v : α) (h : capInv s) :
    capInv (PushBack s v) := by
  cases h with
  | inl h0 =>
      obtain ⟨hs, hc⟩ := h0
      have hdnil : s.data = [] := List.length_eq_zero.mp hs
      right
      unfold PushBack growCapacity
      rw [if_neg (by simp [hs, hc]), if_pos hc]
      constructor
      · simp [SimpleVector.size, hdnil]
      · simp [SimpleVector.size, hdnil, Nat.clog_one_right]
  | inr h1 =>
      obtain ⟨hk, hcap⟩ := h1
      have hkle : s.size ≤ 2 ^ Nat.clog 2 s.size :=
        Nat.le_pow_clog (by norm_num) _
      right
      unfold PushBack growCapacity
      split
      · next hne =>
          constructor
          · simp [SimpleVector.size]
          · have hlt : s.size + 1 ≤ 2 ^ Nat.clog 2 s.size := by omega
            have hstay := clog2_succ_stay hlt
            simp only [SimpleVector.size, List.length_append,
              List.length_singleton] at hstay hcap ⊢
            rw [hstay, ← hcap]
      · next hne =>
          have heq : s.size = s.capacity := by omega
          have hcapk : s.size = 2 ^ Nat.clog 2 s.size := by omega
          have hgrow := clog2_succ_grow hk hcapk
          have hcap0 : s.capacity ≠ 0 := by omega
          rw [if_neg hcap0]
          constructor
          · simp [SimpleVector.size]
          · simp only [SimpleVector.size, List.length_append,
              List.length_singleton] at hgrow hcapk heq ⊢
            rw [hgrow, pow_succ, ← hcapk, heq]

lemma pushAll_capInv (l : List α) : ∀ s : SimpleVector α, capInv s →
    capInv (pushAll s l) ∧ (pushAll s l).data = s.data ++ l := by
  induction l with
  | nil => intro s h; exact ⟨h, by simp [pushAll]⟩
  | cons v t ih =>
      intro s h
      obtain ⟨h1, h2⟩ := ih (PushBack s v) (capInv_pushBack s v h)
      refine ⟨h1, ?_⟩
      have : pushAll s (v :: t) = pushAll (PushBack s v) t := rfl
      rw [this, h2, pushBack_data]
      simp

end SV

/-! ### Claims -/

open SV

/-- C1, counterexample: the claim asserts that after `D = move(C)` the source
`C` is left with size 0 and capacity 0.  With `D = {1}` and `C = {2}`,
`operator=(SimpleVector&&)` swaps the two states, so `C` ends with size 1 and
capacity 1, not emptied. -/
theorem c1_move_assign_counterexample :
    ¬ (((moveAssign (ctorInitList [(1 : Nat)]) (ctorInitList [2])).2).size = 0 ∧
       ((moveAssign (ctorInitList [(1 : Nat)]) (ctorInitList [2])).2).capacity = 0) := by
  decide

/-- C1, amended: move assignment (between distinct objects) exchanges the two
states — the destination takes the source's prior elements, size, and
capacity, and the source takes the destination's prior state, so the source is
emptied exactly when the destination was default-constructed (empty, capacity
0).  Move construction does drain the source: the new vector holds the
source's prior state and the source is left with size 0 and capacity 0. -/
theorem c1_move_semantics (α : Type) (d c : SimpleVector α) :
    moveAssign d c = (c, d) ∧
    (moveAssign emptyVec c).1 = c ∧
    (moveAssign emptyVec c).2.size = 0 ∧
    (moveAssign emptyVec c).2.capacity = 0 ∧
    (moveCtor c).1 = c ∧
    (moveCtor c).2.size = 0 ∧
    (moveCtor c).2.capacity = 0 :=
  ⟨rfl, rfl, rfl, rfl, rfl, rfl, rfl⟩

/-- C4: `Reserve(n)` with `n ≤ capacity_` changes nothing; with
`n > capacity_` it sets the capacity to exactly `n` and preserves the size and
all live elements in order. -/
theorem c4_reserve (α : Type) (s : SimpleVector α) (n : Nat) :
    (n ≤ s.capacity → Reserve s n = s) ∧
    (s.capacity < n →
      (Reserve s n).capacity = n ∧ (Reserve s n).size = s.size ∧
      (Reserve s n).data = s.data) := by
  constructor
  · intro h
    rw [Reserve, if_neg (by omega)]
  · intro h
    rw [Reserve, if_pos (by omega)]
    exact ⟨rfl, rfl, rfl⟩

/-- Witness for C4 at `s = {1,2}` with capacity 4, `n = 3` (no-op case) and
`n = 9` (growth case). -/
theorem c4_reserve_witness :
    Reserve (SimpleVector.mk [(1 : Nat), 2] 4) 3 = SimpleVector.mk [1, 2] 4 ∧
    (Reserve (SimpleVector.mk [(1 : Nat), 2] 4) 9).capacity = 9 ∧
    (Reserve (SimpleVector.mk [(1 : Nat), 2] 4) 9).data = [1, 2] :=
  ⟨(c4_reserve Nat (SimpleVector.mk [1, 2] 4) 3).1 (by decide),
   ((c4_reserve Nat (SimpleVector.mk [1, 2] 4) 9).2 (by decide)).1,
   ((c4_reserve Nat (SimpleVector.mk [1, 2] 4) 9).2 (by decide)).2.2⟩

/-- C5: `Resize(n)` with `n ≤ size_` sets the size to `n`, keeps the first
`n` live elements unchanged, and leaves the capacity unchanged. -/
theorem c5_resize_shrink (α : Type) [Inhabited α] (s : SimpleVector α)
    (n : Nat) (h : n ≤ s.size) :
    (Resize s n).size = n ∧ (Resize s n).data = s.data.take n ∧
    (Resize s n).capacity = s.capacity := by
  rw [Resize, if_pos h]
  refine ⟨?_, rfl, rfl⟩
  simp only [SimpleVector.size] at h ⊢
  simp [List.length_take]
  omega

/-- Witness for C5 at `s = {7,8,9}` with capacity 4, `n = 2`. -/
theorem c5_resize_shrink_witness :
    (Resize (SimpleVector.mk [(7 : Nat), 8, 9] 4) 2).size = 2 ∧
    (Resize (SimpleVector.mk [(7 : Nat), 8, 9] 4) 2).data = [7, 8] ∧
    (Resize (SimpleVector.mk [(7 : Nat), 8, 9] 4) 2).capacity = 4 := by
  have h := c5_resize_shrink Nat (SimpleVector.mk [7, 8, 9] 4) 2 (by decide)
  exact ⟨h.1, h.2.1.trans (by decide), h.2.2⟩

/-- C10: on a non-empty vector, `PopBack` decreases the size by exactly one
and leaves the capacity and the first `size - 1` live elements unchanged. -/
theorem c10_popback (α : Type) (s : SimpleVector α) (_hne : s.size ≠ 0) :
    (PopBack s).size = s.size - 1 ∧ (PopBack s).capacity = s.capacity ∧
    (PopBack s).data = s.data.take (s.size - 1) := by
  refine ⟨?_, rfl, ?_⟩
  · simp [PopBack, SimpleVector.size]
  · simp [PopBack, SimpleVector.size, List.dropLast_eq_take]

/-- Witness for C10 at `s = {3,4}` with capacity 2. -/
theorem c10_popback_witness :
    (PopBack (SimpleVector.mk [(3 : Nat), 4] 2)).size = 1 ∧
    (PopBack (SimpleVector.mk [(3 : Nat), 4] 2)).capacity = 2 ∧
    (PopBack (SimpleVector.mk [(3 : Nat), 4] 2)).data = [3] := by
  have h := c10_popback Nat (SimpleVector.mk [3, 4] 2) (by decide)
  exact ⟨h.1, h.2.1, h.2.2.trans (by decide)⟩

/-- C9: on a non-empty vector, `Erase(end() - 1)` returns an iterator equal
to the new `end()` (the returned index equals the new size) and leaves the
first `size - 1` elements unchanged. -/
theorem c9_erase_last (α : Type) (s : SimpleVector α) (_hne : s.size ≠ 0) :
    (Erase s (s.size - 1)).2 = (Erase s (s.size - 1)).1.size ∧
    (Erase s (s.size - 1)).1.data = s.data.take (s.size - 1) := by
  simp only [SimpleVector.size]
  have hd : s.data.drop (s.data.length - 1 + 1) = [] := by
    apply List.drop_eq_nil_of_le
    omega
  constructor
  · simp [Erase, SimpleVector.size, hd, List.length_take]
  · simp [Erase, SimpleVector.size, hd]

/-- Witness for C9 at `s = {5,6,7}` with capacity 4. -/
theorem c9_erase_last_witness :
    (Erase (SimpleVector.mk [(5 : Nat), 6, 7] 4) 2).2 =
      (Erase (SimpleVector.mk [(5 : Nat), 6, 7] 4) 2).1.size ∧
    (Erase (SimpleVector.mk [(5 : Nat), 6, 7] 4) 2).1.data = [5, 6] := by
  have h := c9_erase_last Nat (SimpleVector.mk [5, 6, 7] 4) (by decide)
  simpa [SimpleVector.size] using h

/-- C8: the copy constructor produces a vector equal to the original under
`operator==` (same size, element-wise equal in order) with capacity exactly
the original's size; the copy is a fresh value whose buffer shares nothing
with the original (in this value model, mutating the copy cannot touch the
original by construction — the source copies into a freshly allocated
buffer). -/
theorem c8_copy_roundtrip (α : Type) [DecidableEq α] (v : SimpleVector α) :
    vecEq (copyCtor v) v = true ∧ (copyCtor v).capacity = v.size := by
  refine ⟨?_, copyCtor_capacity v⟩
  simp [vecEq, SimpleVector.size, copyCtor_data]

/-- C6: `At(i)` fails with `IndexOutOfRange` if and only if `i ≥ size_`
(hence both `At(size)` and `At(size + 1)` fail), and when the vector is
non-empty `At(size - 1)` succeeds and returns the last live element.  `At` is
a pure observer of the state, so the state is unchanged whether or not the
error is raised. -/
theorem c6_at_checked (α : Type) (s : SimpleVector α) (i : Nat) :
    (At s i = .error .indexOutOfRange ↔ s.size ≤ i) ∧
    (∀ h : s.data ≠ [], At s (s.size - 1) = .ok (s.data.getLast h)) := by
  constructor
  · rw [At]
    split
    · next hge => simpa using hge
    · next hge => simp; omega
  · intro h
    have hpos : 0 < s.data.length := List.length_pos.mpr h
    rw [At]
    split
    · next hge => simp only [SimpleVector.size] at hge; omega
    · next hge =>
        congr 1
        rw [List.getLast_eq_getElem]
        simp [SimpleVector.size]

/-- Witness for C6 at `s = {5,7}` with capacity 2, `i = 2` (failure) and the
last-element access. -/
theorem c6_at_checked_witness :
    (At (SimpleVector.mk [(5 : Nat), 7] 2) 2 = .error .indexOutOfRange) ∧
    (At (SimpleVector.mk [(5 : Nat), 7] 2) 1 = .ok 7) :=
  ⟨((c6_at_checked Nat (SimpleVector.mk [5, 7] 2) 2).1).mpr (by decide),
   ((c6_at_checked Nat (SimpleVector.mk [5, 7] 2) 2).2 (by decide)).trans
     (by rfl)⟩

/-- C7: for `n ≤ size_`, `Insert(begin() + n, v)` followed by `Erase` at the
returned position restores the original element sequence and size; `Insert`
returns an iterator to the inserted element (slot `n` holds `v`) and `Erase`
returns the iterator to the slot following the erased element (index `n`
again, now naming the element that previously followed `v`). -/
theorem c7_insert_erase_inverse (α : Type) (s : SimpleVector α) (n : Nat)
    (v : α) (h : n ≤ s.size) :
    (Erase (Insert s n v).1 (Insert s n v).2).1.data = s.data ∧
    (Erase (Insert s n v).1 (Insert s n v).2).1.size = s.size ∧
    (Erase (Insert s n v).1 (Insert s n v).2).1.capacity =
      (Insert s n v).1.capacity ∧
    (Insert s n v).2 = n ∧
    (Insert s n v).1.data[n]? = some v ∧
    (Erase (Insert s n v).1 (Insert s n v).2).2 = n := by
  simp only [SimpleVector.size] at h
  have hlen : (s.data.take n).length = n := by
    simp [List.length_take]; omega
  have hdata : ∀ c : Nat,
      (Erase (SimpleVector.mk (s.data.take n ++ v :: s.data.drop n) c) n).1.data
        = s.data := by
    intro c
    show (s.data.take n ++ v :: s.data.drop n).take n ++
        (s.data.take n ++ v :: s.data.drop n).drop (n + 1) = s.data
    have h1 : (s.data.take n ++ v :: s.data.drop n).take n = s.data.take n :=
      List.take_left' hlen
    have h2 : (s.data.take n ++ v :: s.data.drop n).drop (n + 1)
        = s.data.drop n := by
      have : s.data.take n ++ v :: s.data.drop n
          = (s.data.take n ++ [v]) ++ s.data.drop n := by simp
      rw [this]
      exact List.drop_left' (by simp [hlen])
    rw [h1, h2, List.take_append_drop]
  have hget : ∀ c : Nat,
      (SimpleVector.mk (s.data.take n ++ v :: s.data.drop n) c).data[n]?
        = some v := by
    intro c
    show (s.data.take n ++ v :: s.data.drop n)[n]? = some v
    rw [List.getElem?_append_right hlen.le, hlen]
    simp
  rw [SV.Insert]
  split
  · exact ⟨hdata _, by simp only [SimpleVector.size, hdata], rfl, rfl, hget _, rfl⟩
  · exact ⟨hdata _, by simp only [SimpleVector.size, hdata], rfl, rfl, hget _, rfl⟩

/-- Witness for C7 at `s = {10,20,30}` with capacity 3 (full, so `Insert`
takes the growth branch), `n = 1`, `v = 99`. -/
theorem c7_insert_erase_inverse_witness :
    (Erase (Insert (SimpleVector.mk [(10 : Nat), 20, 30] 3) 1 99).1
        (Insert (SimpleVector.mk [(10 : Nat), 20, 30] 3) 1 99).2).1.data
      = [10, 20, 30] ∧
    (Insert (SimpleVector.mk [(10 : Nat), 20, 30] 3) 1 99).1.data[1]? =
      some 99 := by
  have h := c7_insert_erase_inverse Nat (SimpleVector.mk [10, 20, 30] 3) 1 99
    (by decide)
  exact ⟨h.1, h.2.2.2.2.1⟩

/-- C2: every state reachable through any sequence of the public operations
(construction, `PushBack`, `PopBack`, `Insert`, `Erase`, `Reserve`, `Resize`,
`Clear`, `swap`, assignment) satisfies `size_ ≤ capacity_` (sizes are
`size_t`, hence non-negative). -/
theorem c2_size_le_capacity (α : Type) [Inhabited α] (s : SimpleVector α)
    (h : Reachable s) : s.size ≤ s.capacity := by
  induction h with
  | default => simp [emptyVec, SimpleVector.size]
  | ofSize n => simp [ctorSize, SimpleVector.size]
  | ofSizeValue n v => simp [ctorSizeValue, SimpleVector.size]
  | ofInitList l => simp [ctorInitList, SimpleVector.size]
  | ofReserveProxy n => simp [ctorReserve, SimpleVector.size]
  | ofCopy _ _ => simp [copyCtor_capacity, SimpleVector.size, copyCtor_data]
  | ofMoveFst _ ih => exact ih
  | ofMoveSnd _ _ => simp [moveCtor, swapVec, emptyVec, SimpleVector.size]
  | pushBack v _ ih => exact size_le_cap_pushBack _ v ih
  | popBack _ _ ih =>
      simp only [PopBack, SimpleVector.size] at ih ⊢
      simp only [List.length_dropLast]
      omega
  | insert n v _ _ ih => exact size_le_cap_insert _ n v ih
  | erase n _ _ ih =>
      simp only [Erase, SimpleVector.size] at ih ⊢
      simp only [List.length_append, List.length_take, List.length_drop]
      omega
  | reserve n _ ih =>
      unfold Reserve
      split
      · dsimp only
        simp only [SimpleVector.size] at ih ⊢
        omega
      · exact ih
  | resize n _ ih => exact size_le_cap_resize _ n ih
  | clear _ _ => simp [Clear, SimpleVector.size]
  | swapFst _ _ _ ihb => exact ihb
  | swapSnd _ _ iha _ => exact iha
  | copyAssigned _ _ _ _ =>
      simp [copyAssign, copyCtor_capacity, SimpleVector.size, copyCtor_data]
  | moveAssignFst _ _ _ ihc => exact ihc
  | moveAssignSnd _ _ ihd _ => exact ihd

/-- Witness for C2 at the state reached by two `PushBack`s and one `PopBack`
from a default-constructed vector. -/
theorem c2_size_le_capacity_witness :
    (PopBack (PushBack (PushBack (emptyVec : SimpleVector Nat) 1) 2)).size ≤
      (PopBack (PushBack (PushBack (emptyVec : SimpleVector Nat) 1) 2)).capacity :=
  c2_size_le_capacity Nat _
    (Reachable.popBack
      (Reachable.pushBack 2 (Reachable.pushBack 1 Reachable.default))
      (by decide))

/-- C3: pushing the `N > 0` values of `l` one by one onto a
default-constructed vector yields size `N`, the elements in insertion order,
and — each growth step having applied
`new_capacity = (capacity == 0 ? 1 : capacity * 2)` as in the source of
`PushBack` — a final capacity `2 ^ Nat.clog 2 N`, which is a power of two,
is `≥ N`, and is the least such power of two. -/
theorem c3_pushback_doubling (α : Type) (l : List α) (h : l ≠ []) :
    (pushAll (emptyVec : SimpleVector α) l).data = l ∧
    (pushAll (emptyVec : SimpleVector α) l).size = l.length ∧
    (pushAll (emptyVec : SimpleVector α) l).capacity =
      2 ^ Nat.clog 2 l.length ∧
    l.length ≤ 2 ^ Nat.clog 2 l.length ∧
    (∀ c : Nat, (∃ k, c = 2 ^ k) → l.length ≤ c →
      2 ^ Nat.clog 2 l.length ≤ c) := by
  obtain ⟨hinv, hdata⟩ := pushAll_capInv l (emptyVec : SimpleVector α)
    capInv_empty
  have hdata' : (pushAll (emptyVec : SimpleVector α) l).data = l := by
    simpa [emptyVec] using hdata
  have hsize : (pushAll (emptyVec : SimpleVector α) l).size = l.length := by
    rw [SimpleVector.size, hdata']
  have hlen : 1 ≤ l.length := List.length_pos.mpr h
  cases hinv with
  | inl h0 => rw [hsize] at h0; omega
  | inr h1 =>
      refine ⟨hdata', hsize, ?_, Nat.le_pow_clog (by norm_num) _, ?_⟩
      · rw [← hsize]
        exact h1.2
      · intro c hpow hc
        obtain ⟨k, hk⟩ := hpow
        subst hk
        exact Nat.pow_le_pow_right (by norm_num)
          ((Nat.le_pow_iff_clog_le (by norm_num)).mp hc)

/-- Witness for C3 at `l = [6, 7, 8]`: three pushes give capacity
`4 = 2 ^ Nat.clog 2 3`, the first power of two `≥ 3`. -/
theorem c3_pushback_doubling_witness :
    (pushAll (emptyVec : SimpleVector Nat) [6, 7, 8]).data = [6, 7, 8] ∧
    (pushAll (emptyVec : SimpleVector Nat) [6, 7, 8]).size = 3 ∧
    (pushAll (emptyVec : SimpleVector Nat) [6, 7, 8]).capacity = 4 := by
  have h := c3_pushback_doubling Nat [6, 7, 8] (by decide)
  have e1 : Nat.clog 2 2 = 1 := by
    simpa using Nat.clog_pow 2 1 (by norm_num)
  have e2 : Nat.clog 2 3 = 2 := by
    rw [Nat.clog_of_two_le (by norm_num) (by norm_num)]
    norm_num [e1]
  refine ⟨h.1, h.2.1, h.2.2.1.trans ?_⟩
  rw [show ([6, 7, 8] : List Nat).length = 3 from rfl, e2]
  norm_num
